import Mathlib

/-!
Shallow embedding of the trading-bot core (src/lib/simple_bot.js and
src/lib/services/bfx_service.js) and proofs about it.

Numbers that JavaScript holds as doubles are modelled as rationals (ℚ);
timestamps as integers (ℤ).  A JavaScript runtime error (a TypeError from
indexing `undefined`) is modelled by an `Option` result being `none`.
The file is organised as definitions first, then theorems.
-/

/-- The signal enumeration: the strings 'buy' / 'sell' / 'neutral' / 'unknown'
returned by `SimpleBot.ema`, `SimpleBot.sma` and `SimpleBot.signal`. -/
inductive Sig where
  | buy
  | sell
  | neutral
  | unknown
deriving DecidableEq, Repr

/-- One period's contribution to the buy/sell counters in `SimpleBot.ema` /
`SimpleBot.sma`: `buy` when `maCurrent < lastPrice`, `sell` when
`maCurrent > lastPrice`, `none` when they are equal or when the moving
average is unavailable (`ma[ma.length - 1]` is `undefined` for an empty
`ma`, and `undefined > x` and `undefined < x` are both false in JS). -/
inductive Vote where
  | buy
  | sell
  | none
deriving DecidableEq, Repr

/-- A candle.  `mts` is the millisecond timestamp; a candle missing the `mts`
field is modelled with `mts = Option.none`.  The JS `open` field is spelled
`opn` (`open` is a Lean keyword). -/
structure Candle where
  mts : Option ℤ
  opn : ℚ
  close : ℚ
  high : ℚ
  low : ℚ
  vol : ℚ
deriving DecidableEq, Repr

/-- `{ bid, ask }` ticker snapshot. -/
structure Ticker where
  bid : ℚ
  ask : ℚ
deriving DecidableEq, Repr

namespace MaLib

/-!
The `technicalindicators` library (an external dependency, outside the
repository; the spec treats it as a collaborator with interface
`compute(kind, period, series) -> series_of_same_or_shorter_length`).
`SMA.calculate({period, values})` returns the sliding-window averages of each
window of `period` consecutive values (empty when `values.length < period`);
`EMA.calculate({period, values})` seeds with the average of the first
`period` values and then folds `ema = (price - ema) * k + ema` with
`k = 2 / (period + 1)`.  We model the exact rational values (the library's
decimal-precision formatting is not modelled).
-/

/-- `SMA.calculate({period, values})`: the list of averages of each window of
`period` consecutive values, oldest window first; empty when fewer than
`period` values are available. -/
def smaCalc (period : ℕ) : List ℚ → List ℚ
  | [] => []
  | v :: vs =>
    if (v :: vs).length < period then []
    else ((v :: vs).take period).sum / (period : ℚ) :: smaCalc period vs

/-- The tail of the EMA series: starting value `prev`, then one output per
remaining input, folding `prev := (v - prev) * k + prev`. -/
def emaRun (k : ℚ) (prev : ℚ) : List ℚ → List ℚ
  | [] => [prev]
  | v :: vs => prev :: emaRun k ((v - prev) * k + prev) vs

/-- `EMA.calculate({period, values})`: empty when fewer than `period` values
are available, otherwise seeded with the average of the first `period`
values and folded over the rest with multiplier `2 / (period + 1)`. -/
def emaCalc (period : ℕ) (values : List ℚ) : List ℚ :=
  if values.length < period then []
  else emaRun (2 / ((period : ℚ) + 1)) ((values.take period).sum / (period : ℚ)) (values.drop period)

end MaLib

namespace SimpleBot

open MaLib

/-- The fixed moving-average periods `[5, 10, 20]` used by `SimpleBot.ema`
and `SimpleBot.sma`. -/
def periods : List ℕ := [5, 10, 20]

/-- One iteration of the `periods.forEach` loop body shared by
`SimpleBot.ema` and `SimpleBot.sma`: compare the most recent value
`maCurrent = ma[ma.length - 1]` of the computed moving-average series
against the last raw price. -/
def maVote (lastPrice : ℚ) (ma : List ℚ) : Vote :=
  match ma.getLast? with
  | Option.none => Vote.none
  | Option.some maCurrent =>
    if maCurrent > lastPrice then Vote.sell
    else if maCurrent < lastPrice then Vote.buy
    else Vote.none

/-- The tail of `SimpleBot.ema`/`SimpleBot.sma`: `buy` when the buy counter
reached `periods.length`, `sell` when the sell counter did, `neutral`
otherwise. -/
def tallySig (votes : List Vote) : Sig :=
  if votes.count Vote.buy = periods.length then Sig.buy
  else if votes.count Vote.sell = periods.length then Sig.sell
  else Sig.neutral

/-- `SimpleBot.ema(values)`: 'unknown' for an empty series, otherwise tally
one vote per period of the EMA series against the last price. -/
def ema (values : List ℚ) : Sig :=
  match values.getLast? with
  | Option.none => Sig.unknown
  | Option.some lastPrice =>
    tallySig (periods.map fun period => maVote lastPrice (emaCalc period values))

/-- `SimpleBot.sma(values)`: 'unknown' for an empty series, otherwise tally
one vote per period of the SMA series against the last price. -/
def sma (values : List ℚ) : Sig :=
  match values.getLast? with
  | Option.none => Sig.unknown
  | Option.some lastPrice =>
    tallySig (periods.map fun period => maVote lastPrice (smaCalc period values))

/-- `SimpleBot.signal(values)`: 'buy' when both families say 'buy', 'sell'
when both say 'sell', 'neutral' in every other case. -/
def signal (values : List ℚ) : Sig :=
  let emaResult := ema values
  let smaResult := sma values
  if emaResult = Sig.buy ∧ smaResult = Sig.buy then Sig.buy
  else if emaResult = Sig.sell ∧ smaResult = Sig.sell then Sig.sell
  else Sig.neutral

/-- An entry of `this.myOrders` as built by `SimpleBot.placeOrder`. -/
structure Order where
  symbol : String
  signal : Sig
  price : ℚ
  amount : ℚ
  timestamp : ℤ
deriving DecidableEq, Repr

/-- `this.candles`: a JS object keyed by symbol, modelled as an association
list in key-insertion order (keys are unique in a JS object; lookups take
the first match). -/
abbrev CandleStore : Type := List (String × List Candle)

/-- `this.candles[symbol]`: `some` when the key is present. -/
def findCandles (store : CandleStore) (symbol : String) : Option (List Candle) :=
  (List.find? (fun e => e.1 = symbol) store).map (fun e => e.2)

/-- `this.tickers[symbol]`. -/
def findTicker (tickers : List (String × Ticker)) (symbol : String) : Option Ticker :=
  (List.find? (fun e => e.1 = symbol) tickers).map (fun e => e.2)

/-- The record built by `SimpleBot.formatCandles`: one array per field. -/
structure CandleFrame where
  opn : List ℚ
  close : List ℚ
  high : List ℚ
  low : List ℚ
  vol : List ℚ
deriving DecidableEq, Repr

/-- `SimpleBot.formatCandles(candles)`: push each candle's fields onto the
per-field arrays. -/
def formatCandles (candles : List Candle) : CandleFrame where
  opn := candles.map (fun c => c.opn)
  close := candles.map (fun c => c.close)
  high := candles.map (fun c => c.high)
  low := candles.map (fun c => c.low)
  vol := candles.map (fun c => c.vol)

/-- The ternary `signal === 'buy' ? 1 : -1` in `SimpleBot.getCurrentPoL`. -/
def direction (s : Sig) : ℚ :=
  if s = Sig.buy then 1 else -1

/-- `SimpleBot.getCurrentPoL()`: fold over `this.myOrders`; an order whose
symbol has no entry in `this.candles` is skipped; for an order whose symbol
has an entry, read the entry's last candle's close (`none` models the
TypeError if that entry were an empty array) and add
`(signal === 'buy' ? 1 : -1) * (lastClose - price) * amount`. -/
def getCurrentPoL (store : CandleStore) : List Order → Option ℚ
  | [] => Option.some 0
  | o :: os =>
    match findCandles store o.symbol with
    | Option.none => getCurrentPoL store os
    | Option.some candles =>
      match candles.getLast? with
      | Option.none => Option.none
      | Option.some c =>
        (getCurrentPoL store os).map
          (fun rest => direction o.signal * (c.close - o.price) * o.amount + rest)

/-- The value `SimpleBot.getCurrentPoL` adds for one order (`0` for an order
whose symbol has no candle entry); used to state what the fold computes. -/
def contrib (store : CandleStore) (o : Order) : ℚ :=
  match findCandles store o.symbol with
  | Option.none => 0
  | Option.some candles =>
    match candles.getLast? with
    | Option.none => 0
    | Option.some c => direction o.signal * (c.close - o.price) * o.amount

/-- `Number.prototype.toFixed(8)` followed by JS string-to-number coercion,
for the nonnegative amounts the bot produces: round to 8 decimal places. -/
def round8 (x : ℚ) : ℚ :=
  (Int.floor (x * 100000000 + 1 / 2) : ℚ) / 100000000

/-- `SimpleBot.placeOrder(symbol, signal, price, amount)`: append one order
(timestamped `Date.now()`, passed in as `now`) to `this.myOrders`. -/
def placeOrder (orders : List Order) (symbol : String) (sig : Sig) (price : ℚ)
    (amount : ℚ) (now : ℤ) : List Order :=
  orders ++ [{ symbol := symbol, signal := sig, price := price, amount := amount,
               timestamp := now }]

/-- The mutable fields of a `SimpleBot` instance. -/
structure BotState where
  tickers : List (String × Ticker)
  candles : CandleStore
  myOrders : List Order
deriving DecidableEq, Repr

/-- `SimpleBot.checkTrade(symbol)`: no-op unless the symbol has both a ticker
and a candles entry (an object and an array are both truthy in JS, even an
empty array).  Compute the combined signal over the closing prices; on
'buy'/'sell', place one order at the last close with a randomly sized
amount (`rand` models the `Math.random()` draw, `maxSpend` the
`maxSpendInUSD` cap); either branch then calls `getCurrentPoL` for the
debug log, whose TypeError (`none`) would propagate. -/
def checkTrade (rand : ℚ) (now : ℤ) (maxSpend : ℚ) (st : BotState) (symbol : String) :
    Option BotState :=
  match findTicker st.tickers symbol, findCandles st.candles symbol with
  | Option.some _, Option.some candles =>
    let closes := (formatCandles candles).close
    let sig := signal closes
    if sig = Sig.buy ∨ sig = Sig.sell then
      match closes.getLast? with
      | Option.none => Option.none
      | Option.some price =>
        let amount := round8 (rand * maxSpend / price)
        let orders := placeOrder st.myOrders symbol sig price amount now
        (getCurrentPoL st.candles orders).map
          (fun _ => { st with myOrders := orders })
    else
      (getCurrentPoL st.candles st.myOrders).map (fun _ => st)
  | _, _ => Option.some st

/-- `this.candles[symbol] = this.candles[symbol] || []` followed by
`this.candles[symbol].push(candle)`. -/
def pushCandle (store : CandleStore) (symbol : String) (c : Candle) : CandleStore :=
  if (List.find? (fun e => e.1 = symbol) store).isSome then
    store.map (fun e => if e.1 = symbol then (e.1, e.2 ++ [c]) else e)
  else
    store ++ [(symbol, [c])]

/-- `Object.keys(updatedSymbols)`: the distinct symbols of a batch in first
occurrence order. -/
def keysOf : List (String × Candle) → List String
  | [] => []
  | (symbol, _) :: rest => symbol :: (keysOf rest).filter (fun s => s ≠ symbol)

/-- `SimpleBot.onUpdateCandles(candles)`: push every candle of the batch into
`this.candles`, then run `checkTrade` once per updated symbol.  `rands i`
models the `Math.random()` draw of the i-th `checkTrade` call. -/
def onUpdateCandles (rands : ℕ → ℚ) (now : ℤ) (maxSpend : ℚ) (st : BotState)
    (batch : List (String × Candle)) : Option BotState :=
  let merged : BotState :=
    { st with candles := batch.foldl (fun s e => pushCandle s e.1 e.2) st.candles }
  (keysOf batch).enum.foldlM
    (fun s e => checkTrade (rands e.1) now maxSpend s e.2) merged

/-- `SimpleBot.onUpdateTickers({symbol, prices})`: last-write-wins overwrite
of `this.tickers[symbol]`. -/
def onUpdateTickers (tickers : List (String × Ticker)) (symbol : String) (prices : Ticker) :
    List (String × Ticker) :=
  if (List.find? (fun e => e.1 = symbol) tickers).isSome then
    tickers.map (fun e => if e.1 = symbol then (e.1, prices) else e)
  else
    tickers ++ [(symbol, prices)]

end SimpleBot

namespace BFXSevice

/-- JS `str.split(sep)` for a single-character separator, over the string's
character list. -/
def splitAux (sep : Char) : List Char → List Char → List String
  | [], acc => [String.mk acc.reverse]
  | c :: rest, acc =>
    if c = sep then String.mk acc.reverse :: splitAux sep rest []
    else splitAux sep rest (c :: acc)

/-- `pair.split(':')`. -/
def splitOnColon (pair : String) : List String :=
  splitAux ':' pair.data []

/-- `BFXSevice.formatSymbol(pair)`: strip a single leading 't'
(`pair.substring(0, 1) === 't' ? pair.substring(1) : pair`). -/
def formatSymbol (pair : String) : String :=
  match pair.data with
  | 't' :: rest => String.mk rest
  | _ => pair

/-- The `{symbol, prices}` message emitted by `BFXSevice.onTicker`. -/
structure TickerUpdate where
  symbol : String
  prices : Ticker
deriving DecidableEq, Repr

/-- `BFXSevice.onTicker(pair, ticker)`: canonicalize the pair and emit
bid/ask unchanged.  `Option`-valued like the other handler so that a crash
would be expressible; for object inputs there is none. -/
def onTicker (pair : String) (ticker : Ticker) : Option TickerUpdate :=
  Option.some { symbol := formatSymbol pair, prices := ticker }

/-- The `candles` argument of `BFXSevice.onCandles`: either a single candle
object or an array of candles. -/
inductive CandlePayload where
  | one (c : Candle)
  | arr (cs : List Candle)
deriving DecidableEq, Repr

/-- What `BFXSevice.onCandles` does after validation: emit a 'candles' event
with the batch, or discard the event (log only, no emission). -/
inductive CandlesOut where
  | emit (batch : List (String × Candle))
  | discard
deriving DecidableEq, Repr

/-- The `myCandles` accumulation in `BFXSevice.onCandles`: an array is
reversed ("Reverse candles as oldest candle must given first"), a single
object becomes a one-element batch. -/
def rawBatch : CandlePayload → List Candle
  | CandlePayload.arr cs => cs.reverse
  | CandlePayload.one c => [c]

/-- `BFXSevice.onCandles(candles, pair)`: split the channel key on ':' and
canonicalize its third field (`options[2]`; reading it when fewer than
three fields exist yields `undefined` and `formatSymbol` then throws —
modelled as `none`).  Arrays are reversed, a single object becomes a
one-element batch (`rawBatch`); candles without `mts` are filtered out; an
empty filtered batch is discarded, otherwise the batch is emitted. -/
def onCandles (candles : CandlePayload) (pair : String) : Option CandlesOut :=
  match (splitOnColon pair).get? 2 with
  | Option.none => Option.none
  | Option.some third =>
    let symbol := formatSymbol third
    let sticks := ((rawBatch candles).filter (fun c => c.mts.isSome)).map (fun c => (symbol, c))
    if sticks.length = 0 then Option.some CandlesOut.discard
    else Option.some (CandlesOut.emit sticks)

/-- One outbound call to the websocket client. -/
inductive WsAction where
  | openConn
  | subTicker (pair : String)
  | subCandles (channelKey : String)
deriving DecidableEq, Repr

/-- The `ws.on('close', ...)` handler registered in `BFXSevice.start`: log,
then exactly one unconditional `ws.open()`. -/
def onCloseActions : List WsAction :=
  [WsAction.openConn]

/-- The `ws.on('open', ...)` handler registered in `BFXSevice.start`: for
every configured symbol, `ws.subscribeTicker('t' + symbol)` and
`ws.subscribeCandles('trade:1m:t' + symbol)`. -/
def onOpenActions (symbols : List String) : List WsAction :=
  symbols.flatMap fun symbol =>
    [WsAction.subTicker ("t" ++ symbol), WsAction.subCandles ("trade:1m:t" ++ symbol)]

end BFXSevice

namespace MaLib

theorem smaCalc_eq_nil_of_short {period : ℕ} {values : List ℚ}
    (h : values.length < period) : smaCalc period values = [] := by
  cases values with
  | nil => rfl
  | cons v vs => simp only [smaCalc, if_pos h]

theorem emaCalc_eq_nil_of_short {period : ℕ} {values : List ℚ}
    (h : values.length < period) : emaCalc period values = [] := by
  simp [emaCalc, h]

end MaLib

namespace SimpleBot

open MaLib

theorem tallySig_eq_buy {votes : List Vote} (hlen : votes.length = periods.length) :
    tallySig votes = Sig.buy ↔ ∀ v ∈ votes, v = Vote.buy := by
  rw [tallySig, ← hlen]
  split_ifs with h1 h2
  · exact ⟨fun _ v hv => (List.count_eq_length.mp h1 v hv).symm, fun _ => rfl⟩
  · exact ⟨(fun h => nomatch h),
      fun h => absurd (List.count_eq_length.mpr fun v hv => (h v hv).symm) h1⟩
  · exact ⟨(fun h => nomatch h),
      fun h => absurd (List.count_eq_length.mpr fun v hv => (h v hv).symm) h1⟩

theorem tallySig_eq_sell {votes : List Vote} (hlen : votes.length = periods.length)
    (hne : votes ≠ []) :
    tallySig votes = Sig.sell ↔ ∀ v ∈ votes, v = Vote.sell := by
  rw [tallySig, ← hlen]
  split_ifs with h1 h2
  · refine ⟨(fun h => nomatch h), fun h => ?_⟩
    obtain ⟨v, hv⟩ := List.exists_mem_of_ne_nil votes hne
    have hb := List.count_eq_length.mp h1 v hv
    rw [h v hv] at hb
    cases hb
  · exact ⟨fun _ v hv => (List.count_eq_length.mp h2 v hv).symm, fun _ => rfl⟩
  · exact ⟨(fun h => nomatch h),
      fun h => absurd (List.count_eq_length.mpr fun v hv => (h v hv).symm) h2⟩

theorem tallySig_eq_neutral {votes : List Vote} (hlen : votes.length = periods.length)
    (hne : votes ≠ []) :
    tallySig votes = Sig.neutral ↔
      ¬ (∀ v ∈ votes, v = Vote.buy) ∧ ¬ (∀ v ∈ votes, v = Vote.sell) := by
  have hb := tallySig_eq_buy hlen
  have hs := tallySig_eq_sell hlen hne
  constructor
  · intro h
    refine ⟨fun hab => ?_, fun has => ?_⟩
    · rw [hb.mpr hab] at h; cases h
    · rw [hs.mpr has] at h; cases h
  · intro ⟨hab, has⟩
    rw [tallySig, ← hlen]
    rw [if_neg (fun hc => hab fun v hv => (List.count_eq_length.mp hc v hv).symm),
      if_neg (fun hc => has fun v hv => (List.count_eq_length.mp hc v hv).symm)]

theorem tallySig_ne_unknown (votes : List Vote) : tallySig votes ≠ Sig.unknown := by
  rw [tallySig]
  split_ifs <;> intro h <;> cases h

theorem ema_eq_unknown_iff {values : List ℚ} : ema values = Sig.unknown ↔ values = [] := by
  rw [ema]
  cases h : values.getLast? with
  | none => simpa using List.getLast?_eq_none_iff.mp h
  | some lastPrice =>
    simp only [tallySig_ne_unknown, iff_false, false_iff]
    intro hv
    rw [hv] at h
    cases h

theorem sma_eq_unknown_iff {values : List ℚ} : sma values = Sig.unknown ↔ values = [] := by
  rw [sma]
  cases h : values.getLast? with
  | none => simpa using List.getLast?_eq_none_iff.mp h
  | some lastPrice =>
    simp only [tallySig_ne_unknown, iff_false, false_iff]
    intro hv
    rw [hv] at h
    cases h

/-- Claim C1, counterexample: on the empty closing-price series the combined
signal returns 'neutral', not 'unknown' as the claim states (the 'unknown'
results of `ema` and `sma` match neither branch of `signal`). -/
theorem signal_empty_counterexample :
    signal ([] : List ℚ) = Sig.neutral ∧ signal ([] : List ℚ) ≠ Sig.unknown := by
  constructor <;> decide

/-- Claim C1, amended: for every closing-price series, the combined signal
returns 'buy' iff both the EMA family and the SMA family return 'buy',
'sell' iff both return 'sell', and 'neutral' in every other case — the
empty series included; it never returns 'unknown'. -/
theorem signal_combines_families (values : List ℚ) :
    (signal values = Sig.buy ↔ ema values = Sig.buy ∧ sma values = Sig.buy) ∧
    (signal values = Sig.sell ↔ ema values = Sig.sell ∧ sma values = Sig.sell) ∧
    (signal values = Sig.neutral ↔
      ¬ (ema values = Sig.buy ∧ sma values = Sig.buy) ∧
      ¬ (ema values = Sig.sell ∧ sma values = Sig.sell)) ∧
    signal values ≠ Sig.unknown := by
  cases he : ema values <;> cases hs : sma values <;> simp [signal, he, hs]

/-- Claim C5: for every non-empty closing-price series and each family, each
period votes 'sell' when its most recent moving-average value exceeds the
last raw price, 'buy' when it is below it, and nothing when they are equal
or the average is unavailable; the family answers 'buy' iff all periods
voted 'buy', 'sell' iff all voted 'sell', 'neutral' otherwise, and
'unknown' exactly on the empty series. -/
theorem ma_family_consensus (values : List ℚ) (lastPrice : ℚ)
    (h : values.getLast? = Option.some lastPrice) :
    (∀ ma maCurrent, List.getLast? ma = Option.some maCurrent →
      (maVote lastPrice ma = Vote.sell ↔ maCurrent > lastPrice) ∧
      (maVote lastPrice ma = Vote.buy ↔ maCurrent < lastPrice) ∧
      (maVote lastPrice ma = Vote.none ↔ maCurrent = lastPrice)) ∧
    (ema values = Sig.buy ↔ ∀ p ∈ periods, maVote lastPrice (MaLib.emaCalc p values) = Vote.buy) ∧
    (ema values = Sig.sell ↔ ∀ p ∈ periods, maVote lastPrice (MaLib.emaCalc p values) = Vote.sell) ∧
    (ema values = Sig.neutral ↔
      ¬ (∀ p ∈ periods, maVote lastPrice (MaLib.emaCalc p values) = Vote.buy) ∧
      ¬ (∀ p ∈ periods, maVote lastPrice (MaLib.emaCalc p values) = Vote.sell)) ∧
    (ema values = Sig.unknown ↔ values = []) ∧
    (sma values = Sig.buy ↔ ∀ p ∈ periods, maVote lastPrice (MaLib.smaCalc p values) = Vote.buy) ∧
    (sma values = Sig.sell ↔ ∀ p ∈ periods, maVote lastPrice (MaLib.smaCalc p values) = Vote.sell) ∧
    (sma values = Sig.neutral ↔
      ¬ (∀ p ∈ periods, maVote lastPrice (MaLib.smaCalc p values) = Vote.buy) ∧
      ¬ (∀ p ∈ periods, maVote lastPrice (MaLib.smaCalc p values) = Vote.sell)) ∧
    (sma values = Sig.unknown ↔ values = []) := by
  have hvote : ∀ ma maCurrent, List.getLast? ma = Option.some maCurrent →
      (maVote lastPrice ma = Vote.sell ↔ maCurrent > lastPrice) ∧
      (maVote lastPrice ma = Vote.buy ↔ maCurrent < lastPrice) ∧
      (maVote lastPrice ma = Vote.none ↔ maCurrent = lastPrice) := by
    intro ma maCurrent hma
    simp only [maVote, hma]
    split_ifs with hgt hlt
    · exact ⟨⟨fun _ => hgt, fun _ => rfl⟩, ⟨(fun hx => nomatch hx), fun hx => absurd hgt (not_lt.mpr hx.le)⟩,
        ⟨(fun hx => nomatch hx), fun hx => absurd hgt (by rw [hx]; exact lt_irrefl _)⟩⟩
    · exact ⟨⟨(fun hx => nomatch hx), fun hx => absurd hx hgt⟩, ⟨fun _ => hlt, fun _ => rfl⟩,
        ⟨(fun hx => nomatch hx), fun hx => absurd hlt (by rw [hx]; exact lt_irrefl _)⟩⟩
    · have heq : maCurrent = lastPrice := le_antisymm (not_lt.mp hgt) (not_lt.mp hlt)
      exact ⟨⟨(fun hx => nomatch hx), fun hx => absurd hx hgt⟩,
        ⟨(fun hx => nomatch hx), fun hx => absurd hx hlt⟩, ⟨fun _ => heq, fun _ => rfl⟩⟩
  have hemaEq : ema values
      = tallySig (periods.map fun p => maVote lastPrice (MaLib.emaCalc p values)) := by
    rw [ema, h]
  have hsmaEq : sma values
      = tallySig (periods.map fun p => maVote lastPrice (MaLib.smaCalc p values)) := by
    rw [sma, h]
  have hlenE : (periods.map fun p => maVote lastPrice (MaLib.emaCalc p values)).length
      = periods.length := List.length_map _ _
  have hlenS : (periods.map fun p => maVote lastPrice (MaLib.smaCalc p values)).length
      = periods.length := List.length_map _ _
  have hneE : (periods.map fun p => maVote lastPrice (MaLib.emaCalc p values)) ≠ [] := by
    simp [periods]
  have hneS : (periods.map fun p => maVote lastPrice (MaLib.smaCalc p values)) ≠ [] := by
    simp [periods]
  refine ⟨hvote, ?_, ?_, ?_, ema_eq_unknown_iff, ?_, ?_, ?_, sma_eq_unknown_iff⟩
  · rw [hemaEq, tallySig_eq_buy hlenE]
    simp only [List.forall_mem_map]
  · rw [hemaEq, tallySig_eq_sell hlenE hneE]
    simp only [List.forall_mem_map]
  · rw [hemaEq, tallySig_eq_neutral hlenE hneE]
    simp only [List.forall_mem_map]
  · rw [hsmaEq, tallySig_eq_buy hlenS]
    simp only [List.forall_mem_map]
  · rw [hsmaEq, tallySig_eq_sell hlenS hneS]
    simp only [List.forall_mem_map]
  · rw [hsmaEq, tallySig_eq_neutral hlenS hneS]
    simp only [List.forall_mem_map]

/-- Claim C5, witness at the concrete series `[1, 2, 3]`. -/
theorem ma_family_consensus_witness :
    (ema [(1 : ℚ), 2, 3] = Sig.buy ↔
      ∀ p ∈ periods, maVote 3 (MaLib.emaCalc p [(1 : ℚ), 2, 3]) = Vote.buy) ∧
    (ema [(1 : ℚ), 2, 3] = Sig.unknown ↔ [(1 : ℚ), 2, 3] = []) :=
  ⟨(ma_family_consensus [(1 : ℚ), 2, 3] 3 (by decide)).2.1,
   (ma_family_consensus [(1 : ℚ), 2, 3] 3 (by decide)).2.2.2.2.1⟩

/-- Claim C9: for a non-empty series shorter than a period, that period's
moving average is unavailable and contributes no vote in either family
(and the computation yields a value rather than crashing); for a series of
length 1 to 4 all three periods are unavailable and both families return
'neutral'. -/
theorem short_series_no_vote (values : List ℚ) (lastPrice : ℚ)
    (h : values.getLast? = Option.some lastPrice) :
    (∀ period, values.length < period →
      maVote lastPrice (MaLib.emaCalc period values) = Vote.none ∧
      maVote lastPrice (MaLib.smaCalc period values) = Vote.none) ∧
    (values.length < 5 → ema values = Sig.neutral ∧ sma values = Sig.neutral) := by
  have hnone : ∀ period, values.length < period →
      maVote lastPrice (MaLib.emaCalc period values) = Vote.none ∧
      maVote lastPrice (MaLib.smaCalc period values) = Vote.none := by
    intro period hp
    rw [MaLib.emaCalc_eq_nil_of_short hp, MaLib.smaCalc_eq_nil_of_short hp]
    exact ⟨rfl, rfl⟩
  refine ⟨hnone, fun h5 => ?_⟩
  have h10 : values.length < 10 := lt_trans h5 (by omega)
  have h20 : values.length < 20 := lt_trans h5 (by omega)
  have hmapE : (periods.map fun p => maVote lastPrice (MaLib.emaCalc p values))
      = [Vote.none, Vote.none, Vote.none] := by
    simp [periods, (hnone 5 h5).1, (hnone 10 h10).1, (hnone 20 h20).1]
  have hmapS : (periods.map fun p => maVote lastPrice (MaLib.smaCalc p values))
      = [Vote.none, Vote.none, Vote.none] := by
    simp [periods, (hnone 5 h5).2, (hnone 10 h10).2, (hnone 20 h20).2]
  have hemaEq : ema values
      = tallySig (periods.map fun p => maVote lastPrice (MaLib.emaCalc p values)) := by
    rw [ema, h]
  have hsmaEq : sma values
      = tallySig (periods.map fun p => maVote lastPrice (MaLib.smaCalc p values)) := by
    rw [sma, h]
  constructor
  · rw [hemaEq, hmapE]; decide
  · rw [hsmaEq, hmapS]; decide

/-- Claim C9, witness at the concrete length-3 series `[1, 2, 3]`. -/
theorem short_series_no_vote_witness :
    (maVote 3 (MaLib.emaCalc 5 [(1 : ℚ), 2, 3]) = Vote.none ∧
      maVote 3 (MaLib.smaCalc 5 [(1 : ℚ), 2, 3]) = Vote.none) ∧
    (ema [(1 : ℚ), 2, 3] = Sig.neutral ∧ sma [(1 : ℚ), 2, 3] = Sig.neutral) :=
  ⟨(short_series_no_vote [(1 : ℚ), 2, 3] 3 (by decide)).1 5 (by decide),
   (short_series_no_vote [(1 : ℚ), 2, 3] 3 (by decide)).2 (by decide)⟩

theorem findCandles_ne_nil {store : CandleStore} (h : ∀ e ∈ store, e.2 ≠ [])
    {symbol : String} {cs : List Candle}
    (hf : findCandles store symbol = Option.some cs) : cs ≠ [] := by
  unfold findCandles at hf
  cases hfind : List.find? (fun e => e.1 = symbol) store with
  | none => rw [hfind] at hf; cases hf
  | some e =>
    rw [hfind] at hf
    cases hf
    exact h e (List.mem_of_find?_eq_some hfind)

theorem getCurrentPoL_eq {store : CandleStore} (h : ∀ e ∈ store, e.2 ≠ []) :
    ∀ orders : List Order,
      getCurrentPoL store orders = Option.some ((orders.map (contrib store)).sum) := by
  intro orders
  induction orders with
  | nil => rfl
  | cons o os ih =>
    cases hfc : findCandles store o.symbol with
    | none =>
      simp only [getCurrentPoL, hfc, ih, List.map_cons, List.sum_cons, contrib]
      norm_num
    | some cs =>
      obtain ⟨c, hc⟩ : ∃ c, cs.getLast? = Option.some c := by
        have := findCandles_ne_nil h hfc
        cases hl : cs.getLast? with
        | none => exact absurd (List.getLast?_eq_none_iff.mp hl) this
        | some c => exact ⟨c, rfl⟩
      simp only [getCurrentPoL, hfc, hc, ih, List.map_cons, List.sum_cons, contrib]
      rfl

/-- Claim C3: for every candle store whose entries are non-empty and every
ledger, `getCurrentPoL` returns the sum over the orders of
`direction(signal) * (lastClose - price) * amount` (with `direction` +1
for 'buy' and -1 for 'sell', and contribution 0 for an order whose symbol
has no candle data — see `contrib`), and 0 on the empty ledger. -/
theorem getCurrentPoL_marks_to_market (store : CandleStore) (orders : List Order)
    (h : ∀ e ∈ store, e.2 ≠ []) :
    getCurrentPoL store orders = Option.some ((orders.map (contrib store)).sum) ∧
    getCurrentPoL store [] = Option.some 0 ∧
    direction Sig.buy = 1 ∧ direction Sig.sell = -1 :=
  ⟨getCurrentPoL_eq h orders, rfl, rfl, rfl⟩

/-- Claim C3, witness: one 'buy' order at price 100, amount 2, with last
close 110, marks to 20; the same 'sell' order marks to -20; the empty
ledger marks to 0. -/
theorem getCurrentPoL_marks_to_market_witness :
    getCurrentPoL [("BTCUSD", [⟨Option.some 0, 110, 110, 110, 110, 0⟩])]
      [⟨"BTCUSD", Sig.buy, 100, 2, 0⟩] = Option.some 20 ∧
    getCurrentPoL [("BTCUSD", [⟨Option.some 0, 110, 110, 110, 110, 0⟩])]
      [⟨"BTCUSD", Sig.sell, 100, 2, 0⟩] = Option.some (-20) ∧
    getCurrentPoL [("BTCUSD", [⟨Option.some 0, 110, 110, 110, 110, 0⟩])] []
      = Option.some 0 := by
  refine ⟨?_, ?_, ?_⟩
  · rw [(getCurrentPoL_marks_to_market _ [⟨"BTCUSD", Sig.buy, 100, 2, 0⟩] (by decide)).1]
    simp [contrib, findCandles, direction]
    norm_num
  · rw [(getCurrentPoL_marks_to_market _ [⟨"BTCUSD", Sig.sell, 100, 2, 0⟩] (by decide)).1]
    simp [contrib, findCandles, direction]
    norm_num
  · exact (getCurrentPoL_marks_to_market _ [] (by decide)).2.1

theorem signal_nil_neutral : signal ([] : List ℚ) = Sig.neutral := by decide

theorem checkTrade_total (rand : ℚ) (now : ℤ) (maxSpend : ℚ) (st : BotState) (symbol : String)
    (hinv : ∀ e ∈ st.candles, e.2 ≠ []) :
    ∃ st', checkTrade rand now maxSpend st symbol = Option.some st' ∧
      st'.tickers = st.tickers ∧ st'.candles = st.candles ∧
      ((∃ cs price,
          (findTicker st.tickers symbol).isSome ∧
          findCandles st.candles symbol = Option.some cs ∧ cs ≠ [] ∧
          (signal (formatCandles cs).close = Sig.buy ∨
            signal (formatCandles cs).close = Sig.sell) ∧
          (formatCandles cs).close.getLast? = Option.some price ∧
          st'.myOrders = placeOrder st.myOrders symbol (signal (formatCandles cs).close) price
            (round8 (rand * maxSpend / price)) now) ∨
       (st'.myOrders = st.myOrders ∧
        ¬ ∃ cs, (findTicker st.tickers symbol).isSome ∧
            findCandles st.candles symbol = Option.some cs ∧ cs ≠ [] ∧
            (signal (formatCandles cs).close = Sig.buy ∨
              signal (formatCandles cs).close = Sig.sell))) := by
  cases hT : findTicker st.tickers symbol with
  | none =>
    refine ⟨st, ?_, rfl, rfl, Or.inr ⟨rfl, ?_⟩⟩
    · simp [checkTrade, hT]
    · rintro ⟨cs, hTick, -, -, -⟩
      simp at hTick
  | some t =>
    cases hC : findCandles st.candles symbol with
    | none =>
      refine ⟨st, ?_, rfl, rfl, Or.inr ⟨rfl, ?_⟩⟩
      · simp [checkTrade, hT, hC]
      · rintro ⟨cs, -, hFind, -, -⟩
        cases hFind
    | some cs =>
      by_cases hsig : signal (formatCandles cs).close = Sig.buy ∨
          signal (formatCandles cs).close = Sig.sell
      · have hclne : (formatCandles cs).close ≠ [] := by
          intro hnil
          rcases hsig with hb | hb <;> rw [hnil, signal_nil_neutral] at hb <;> cases hb
        obtain ⟨price, hprice⟩ : ∃ p, (formatCandles cs).close.getLast? = Option.some p := by
          cases hl : (formatCandles cs).close.getLast? with
          | none => exact absurd (List.getLast?_eq_none_iff.mp hl) hclne
          | some p => exact ⟨p, rfl⟩
        have hcsne : cs ≠ [] := by
          intro hnil
          rw [hnil] at hclne
          exact hclne rfl
        refine ⟨{ st with myOrders := placeOrder st.myOrders symbol (signal (formatCandles cs).close) price (round8 (rand * maxSpend / price)) now }, ?_, rfl, rfl, Or.inl ⟨cs, price, rfl, rfl, hcsne, hsig, hprice, rfl⟩⟩
        simp only [checkTrade, hT, hC, if_pos hsig, hprice, getCurrentPoL_eq hinv]
        rfl
      · refine ⟨st, ?_, rfl, rfl, Or.inr ⟨rfl, ?_⟩⟩
        · simp only [checkTrade, hT, hC, if_neg hsig, getCurrentPoL_eq hinv]
          rfl
        · rintro ⟨cs', -, hFind, -, hsig'⟩
          cases hFind
          exact hsig hsig'

/-- Claim C4: whenever every candle entry is non-empty (the store invariant,
see `onUpdateCandles_keeps_entries_nonempty`), `checkTrade` runs without a
TypeError, leaves tickers and candles unchanged, and appends exactly one
order — priced at the symbol's last close — iff the symbol has a ticker, a
non-empty candle series, and a combined signal of 'buy' or 'sell'; in
every other case the ledger is unchanged. -/
theorem checkTrade_trades_iff_ready (rand : ℚ) (now : ℤ) (maxSpend : ℚ) (st : BotState)
    (symbol : String) (hinv : ∀ e ∈ st.candles, e.2 ≠ []) :
    ∃ st', checkTrade rand now maxSpend st symbol = Option.some st' ∧
      st'.tickers = st.tickers ∧ st'.candles = st.candles ∧
      ((∃ cs price,
          (findTicker st.tickers symbol).isSome ∧
          findCandles st.candles symbol = Option.some cs ∧ cs ≠ [] ∧
          (signal (formatCandles cs).close = Sig.buy ∨
            signal (formatCandles cs).close = Sig.sell) ∧
          (formatCandles cs).close.getLast? = Option.some price ∧
          st'.myOrders = placeOrder st.myOrders symbol (signal (formatCandles cs).close) price
            (round8 (rand * maxSpend / price)) now) ∨
       (st'.myOrders = st.myOrders ∧
        ¬ ∃ cs, (findTicker st.tickers symbol).isSome ∧
            findCandles st.candles symbol = Option.some cs ∧ cs ≠ [] ∧
            (signal (formatCandles cs).close = Sig.buy ∨
              signal (formatCandles cs).close = Sig.sell))) :=
  checkTrade_total rand now maxSpend st symbol hinv

/-- Claim C4, witness at a state with no ticker for the symbol: `checkTrade`
is a no-op and raises no error. -/
theorem checkTrade_trades_iff_ready_witness :
    ∃ st', checkTrade 0 0 1000 ⟨[], [], []⟩ "BTCUSD" = Option.some st' ∧
      st'.tickers = BotState.tickers ⟨[], [], []⟩ ∧
      st'.candles = BotState.candles ⟨[], [], []⟩ ∧
      ((∃ cs price,
          (findTicker (BotState.tickers ⟨[], [], []⟩) "BTCUSD").isSome ∧
          findCandles (BotState.candles ⟨[], [], []⟩) "BTCUSD" = Option.some cs ∧ cs ≠ [] ∧
          (signal (formatCandles cs).close = Sig.buy ∨
            signal (formatCandles cs).close = Sig.sell) ∧
          (formatCandles cs).close.getLast? = Option.some price ∧
          st'.myOrders = placeOrder (BotState.myOrders ⟨[], [], []⟩) "BTCUSD"
            (signal (formatCandles cs).close) price (round8 (0 * 1000 / price)) 0) ∨
       (st'.myOrders = BotState.myOrders ⟨[], [], []⟩ ∧
        ¬ ∃ cs, (findTicker (BotState.tickers ⟨[], [], []⟩) "BTCUSD").isSome ∧
            findCandles (BotState.candles ⟨[], [], []⟩) "BTCUSD" = Option.some cs ∧ cs ≠ [] ∧
            (signal (formatCandles cs).close = Sig.buy ∨
              signal (formatCandles cs).close = Sig.sell))) :=
  checkTrade_trades_iff_ready 0 0 1000 ⟨[], [], []⟩ "BTCUSD" (by simp)

theorem pushCandle_inv {store : CandleStore} (h : ∀ e ∈ store, e.2 ≠ [])
    (symbol : String) (c : Candle) :
    ∀ e ∈ pushCandle store symbol c, e.2 ≠ [] := by
  intro e he
  unfold pushCandle at he
  split_ifs at he with hs
  · obtain ⟨e0, he0, rfl⟩ := List.mem_map.mp he
    split_ifs with h1
    · simp
    · exact h e0 he0
  · rcases List.mem_append.mp he with h1 | h1
    · exact h e h1
    · rw [List.mem_singleton.mp h1]
      simp

theorem foldl_pushCandle_inv :
    ∀ (batch : List (String × Candle)) (store : CandleStore),
      (∀ e ∈ store, e.2 ≠ []) →
      ∀ e ∈ batch.foldl (fun s e => pushCandle s e.1 e.2) store, e.2 ≠ [] := by
  intro batch
  induction batch with
  | nil => intro store h; exact h
  | cons b bs ih =>
    intro store h
    exact ih (pushCandle store b.1 b.2) (pushCandle_inv h b.1 b.2)

theorem foldlM_checkTrade (now : ℤ) (maxSpend : ℚ) :
    ∀ (l : List (ℕ × String)) (rands : ℕ → ℚ) (st : BotState),
      (∀ e ∈ st.candles, e.2 ≠ []) →
      ∃ st', List.foldlM (fun s e => checkTrade (rands e.1) now maxSpend s e.2) st l
          = Option.some st' ∧
        st'.candles = st.candles ∧ st'.tickers = st.tickers := by
  intro l
  induction l with
  | nil => intro rands st h; exact ⟨st, rfl, rfl, rfl⟩
  | cons e es ih =>
    intro rands st h
    obtain ⟨st1, heq1, hticks1, hcands1, -⟩ := checkTrade_total (rands e.1) now maxSpend st e.2 h
    have h1 : ∀ x ∈ st1.candles, x.2 ≠ [] := by rw [hcands1]; exact h
    obtain ⟨st', heq', hcands', hticks'⟩ := ih rands st1 h1
    refine ⟨st', ?_, by rw [hcands', hcands1], by rw [hticks', hticks1]⟩
    rw [List.foldlM_cons, heq1]
    simpa using heq'

/-- Claim C10: starting from a candle store whose entries are all non-empty,
`onUpdateCandles` completes without a TypeError (entries are only created
when a candle is pushed into them and candles are never removed), the
invariant still holds afterwards, and `getCurrentPoL`'s last-element reads
against the resulting store always succeed. -/
theorem onUpdateCandles_keeps_entries_nonempty (rands : ℕ → ℚ) (now : ℤ) (maxSpend : ℚ)
    (st : BotState) (batch : List (String × Candle))
    (hinv : ∀ e ∈ st.candles, e.2 ≠ []) :
    ∃ st', onUpdateCandles rands now maxSpend st batch = Option.some st' ∧
      (∀ e ∈ st'.candles, e.2 ≠ []) ∧
      ∀ orders, getCurrentPoL st'.candles orders
        = Option.some ((orders.map (contrib st'.candles)).sum) := by
  have hm : ∀ e ∈ batch.foldl (fun s e => pushCandle s e.1 e.2) st.candles, e.2 ≠ [] :=
    foldl_pushCandle_inv batch st.candles hinv
  obtain ⟨st', heq, hcands, -⟩ := foldlM_checkTrade now maxSpend ((keysOf batch).enum) rands
    { st with candles := batch.foldl (fun s e => pushCandle s e.1 e.2) st.candles } hm
  have hinv' : ∀ e ∈ st'.candles, e.2 ≠ [] := by rw [hcands]; exact hm
  exact ⟨st', heq, hinv', fun orders => getCurrentPoL_eq hinv' orders⟩

/-- Claim C10, witness: one batch pushed into the empty store. -/
theorem onUpdateCandles_keeps_entries_nonempty_witness :
    ∃ st', onUpdateCandles (fun _ => 0) 0 1000 ⟨[], [], []⟩
        [("BTCUSD", ⟨Option.some 1, 1, 1, 1, 1, 1⟩)] = Option.some st' ∧
      (∀ e ∈ st'.candles, e.2 ≠ []) ∧
      ∀ orders, getCurrentPoL st'.candles orders
        = Option.some ((orders.map (contrib st'.candles)).sum) :=
  onUpdateCandles_keeps_entries_nonempty (fun _ => 0) 0 1000 ⟨[], [], []⟩
    [("BTCUSD", ⟨Option.some 1, 1, 1, 1, 1, 1⟩)] (by simp)

end SimpleBot

namespace BFXSevice

/-- Claim C2, counterexample: a batch delivered oldest-first (ascending
timestamps 1, 2) is reversed by `onCandles`, so the emitted batch has
decreasing timestamps — the oldest-first invariant does not hold
regardless of the input order. -/
theorem onCandles_order_counterexample :
    onCandles (CandlePayload.arr [⟨Option.some 1, 1, 1, 1, 1, 1⟩, ⟨Option.some 2, 2, 2, 2, 2, 2⟩])
        "trade:1m:tBTCUSD"
      = Option.some (CandlesOut.emit [("BTCUSD", ⟨Option.some 2, 2, 2, 2, 2, 2⟩),
          ("BTCUSD", ⟨Option.some 1, 1, 1, 1, 1, 1⟩)]) ∧
    ¬ List.Pairwise (fun a b : String × Candle => a.2.mts.getD 0 ≤ b.2.mts.getD 0)
      [("BTCUSD", ⟨Option.some 2, 2, 2, 2, 2, 2⟩), ("BTCUSD", ⟨Option.some 1, 1, 1, 1, 1, 1⟩)] := by
  constructor <;> decide

/-- Claim C2, amended: provided the input array arrives newest-first
(non-increasing timestamps), as the source delivers snapshots, the batch
`onCandles` emits is in non-decreasing timestamp order (for a well-formed
colon-delimited channel key). -/
theorem onCandles_emits_oldest_first (cs : List Candle) (pair : String)
    (h3 : ((splitOnColon pair).get? 2).isSome)
    (hsorted : List.Pairwise (fun a b : Candle => b.mts.getD 0 ≤ a.mts.getD 0) cs) :
    ∃ out, onCandles (CandlePayload.arr cs) pair = Option.some out ∧
      ∀ batch, out = CandlesOut.emit batch →
        List.Pairwise (fun a b : String × Candle => a.2.mts.getD 0 ≤ b.2.mts.getD 0) batch := by
  obtain ⟨third, hget⟩ := Option.isSome_iff_exists.mp h3
  have hrev : List.Pairwise (fun a b : Candle => a.mts.getD 0 ≤ b.mts.getD 0) cs.reverse :=
    List.pairwise_reverse.mpr hsorted
  have hsticks : List.Pairwise (fun a b : String × Candle => a.2.mts.getD 0 ≤ b.2.mts.getD 0)
      (((rawBatch (CandlePayload.arr cs)).filter (fun c => c.mts.isSome)).map
        (fun c => (formatSymbol third, c))) :=
    List.Pairwise.map _ (fun a b hab => hab) ((hrev.filter _))
  simp only [onCandles, hget]
  split_ifs with hlen
  · refine ⟨CandlesOut.discard, rfl, ?_⟩
    intro batch hb
    cases hb
  · refine ⟨_, rfl, fun batch hb => ?_⟩
    cases hb
    exact hsticks

/-- Claim C2 (amended), witness: the two-candle batch delivered newest-first
on channel `trade:1m:tBTCUSD`. -/
theorem onCandles_emits_oldest_first_witness :
    ∃ out, onCandles (CandlePayload.arr [⟨Option.some 2, 2, 2, 2, 2, 2⟩,
        ⟨Option.some 1, 1, 1, 1, 1, 1⟩]) "trade:1m:tBTCUSD" = Option.some out ∧
      ∀ batch, out = CandlesOut.emit batch →
        List.Pairwise (fun a b : String × Candle => a.2.mts.getD 0 ≤ b.2.mts.getD 0) batch :=
  onCandles_emits_oldest_first
    [⟨Option.some 2, 2, 2, 2, 2, 2⟩, ⟨Option.some 1, 1, 1, 1, 1, 1⟩]
    "trade:1m:tBTCUSD" (by decide) (by decide)

/-- Claim C6: for a well-formed channel key, `onCandles` always completes;
every candle in an emitted batch carries a timestamp, and the event is
discarded (no emission) exactly when no candle of the batch carries one. -/
theorem onCandles_validates_timestamps (payload : CandlePayload) (pair : String)
    (h3 : ((splitOnColon pair).get? 2).isSome) :
    ∃ out, onCandles payload pair = Option.some out ∧
      (∀ batch, out = CandlesOut.emit batch →
        batch ≠ [] ∧ ∀ p ∈ batch, p.2.mts.isSome) ∧
      (out = CandlesOut.discard ↔
        (rawBatch payload).filter (fun c => c.mts.isSome) = []) := by
  obtain ⟨third, hget⟩ := Option.isSome_iff_exists.mp h3
  simp only [onCandles, hget]
  split_ifs with hlen
  · refine ⟨CandlesOut.discard, rfl, ?_, ?_⟩
    · intro batch hb
      cases hb
    · simp only [List.length_map, List.length_eq_zero] at hlen
      simp [hlen]
  · refine ⟨_, rfl, fun batch hb => ?_, ?_⟩
    · cases hb
      refine ⟨fun hnil => hlen (by rw [hnil]; rfl), ?_⟩
      rintro p hp
      obtain ⟨c, hc, rfl⟩ := List.mem_map.mp hp
      exact (List.mem_filter.mp hc).2
    · simp only [List.length_map, List.length_eq_zero] at hlen
      constructor
      · intro hb
        cases hb
      · intro hf
        exact absurd hf hlen

/-- Claim C6, witness: a batch whose only candle lacks `mts` is discarded. -/
theorem onCandles_validates_timestamps_witness :
    ∃ out, onCandles (CandlePayload.arr [⟨Option.none, 1, 1, 1, 1, 1⟩]) "trade:1m:tBTCUSD"
        = Option.some out ∧
      (∀ batch, out = CandlesOut.emit batch →
        batch ≠ [] ∧ ∀ p ∈ batch, p.2.mts.isSome) ∧
      (out = CandlesOut.discard ↔
        (rawBatch (CandlePayload.arr [⟨Option.none, 1, 1, 1, 1, 1⟩])).filter
          (fun c => c.mts.isSome) = []) :=
  onCandles_validates_timestamps (CandlePayload.arr [⟨Option.none, 1, 1, 1, 1, 1⟩])
    "trade:1m:tBTCUSD" (by decide)

/-- Claim C7, counterexample: a channel key with fewer than three
colon-delimited fields makes `onCandles` read `options[2]` as `undefined`
and crash in `formatSymbol` (`substring` of `undefined` throws a
TypeError) — not every inbound event is absorbed. -/
theorem onCandles_short_key_counterexample :
    onCandles (CandlePayload.one ⟨Option.some 1, 1, 1, 1, 1, 1⟩) "BTCUSD" = Option.none := by
  decide

/-- Claim C7, amended: `onTicker` completes on every pair string and ticker
object (no hypothesis on the pair), and `onCandles` completes on every
payload whose channel key has at least three colon-delimited fields. -/
theorem handlers_absorb_faults (pair : String) (ticker : Ticker) (payload : CandlePayload)
    (channelKey : String) (h3 : ((splitOnColon channelKey).get? 2).isSome) :
    (∃ u, onTicker pair ticker = Option.some u) ∧
    (∃ r, onCandles payload channelKey = Option.some r) := by
  obtain ⟨third, hget⟩ := Option.isSome_iff_exists.mp h3
  refine ⟨⟨_, rfl⟩, ?_⟩
  simp only [onCandles, hget]
  split_ifs with hlen
  · exact ⟨CandlesOut.discard, rfl⟩
  · exact ⟨_, rfl⟩

/-- Claim C7 (amended), witness: the colon-free ticker pair `tBTCUSD` and the
candle channel key `trade:1m:tBTCUSD`. -/
theorem handlers_absorb_faults_witness :
    (∃ u, onTicker "tBTCUSD" ⟨1, 2⟩ = Option.some u) ∧
    (∃ r, onCandles (CandlePayload.one ⟨Option.some 1, 1, 1, 1, 1, 1⟩) "trade:1m:tBTCUSD"
      = Option.some r) :=
  handlers_absorb_faults "tBTCUSD" ⟨1, 2⟩
    (CandlePayload.one ⟨Option.some 1, 1, 1, 1, 1, 1⟩) "trade:1m:tBTCUSD" (by decide)

/-- Claim C8: the `close` handler issues exactly one unconditional `open()`
call, and the `open` handler re-subscribes the ticker channel
(`'t' + symbol`) and the 1-minute candle channel (`'trade:1m:t' + symbol`)
for every symbol in the originally configured list, and nothing else. -/
theorem close_reopens_and_open_resubscribes (symbols : List String) (symbol : String)
    (hmem : symbol ∈ symbols) :
    onCloseActions = [WsAction.openConn] ∧
    onCloseActions.count WsAction.openConn = 1 ∧
    WsAction.subTicker ("t" ++ symbol) ∈ onOpenActions symbols ∧
    WsAction.subCandles ("trade:1m:t" ++ symbol) ∈ onOpenActions symbols ∧
    ∀ a ∈ onOpenActions symbols, ∃ s, s ∈ symbols ∧
      (a = WsAction.subTicker ("t" ++ s) ∨ a = WsAction.subCandles ("trade:1m:t" ++ s)) := by
  refine ⟨rfl, rfl, ?_, ?_, ?_⟩
  · exact List.mem_flatMap.mpr ⟨symbol, hmem, by simp⟩
  · exact List.mem_flatMap.mpr ⟨symbol, hmem, by simp⟩
  · intro a ha
    obtain ⟨s, hs, hin⟩ := List.mem_flatMap.mp ha
    simp only [List.mem_cons, List.mem_singleton, List.not_mem_nil, or_false] at hin
    rcases hin with h | h
    · exact ⟨s, hs, Or.inl h⟩
    · exact ⟨s, hs, Or.inr h⟩

/-- Claim C8, witness for the configured list `["BTCUSD"]`. -/
theorem close_reopens_and_open_resubscribes_witness :
    onCloseActions = [WsAction.openConn] ∧
    onCloseActions.count WsAction.openConn = 1 ∧
    WsAction.subTicker ("t" ++ "BTCUSD") ∈ onOpenActions ["BTCUSD"] ∧
    WsAction.subCandles ("trade:1m:t" ++ "BTCUSD") ∈ onOpenActions ["BTCUSD"] ∧
    ∀ a ∈ onOpenActions ["BTCUSD"], ∃ s, s ∈ ["BTCUSD"] ∧
      (a = WsAction.subTicker ("t" ++ s) ∨ a = WsAction.subCandles ("trade:1m:t" ++ s)) :=
  close_reopens_and_open_resubscribes ["BTCUSD"] "BTCUSD" (by decide)

end BFXSevice
